import Mathlib

/-!
Verification of the note-segregation core and surrounding execution flows of
the Youtube_AI_Learning repository (three Python scripts: `src/main.py`,
`src/1_PART/main.py`, `src/2_PART/main.py`).

The Python code is shallowly embedded: strings are Lean `String`s (lists of
unicode code points, matching Python's view of `str`), Python dicts holding
the four note sections are association lists `List (String × String)` in
insertion order, and statements that can raise (`sections[key]`, `raise
ValueError(...)`) are modelled in the `Except String` monad.
-/

namespace YTAI

/-- Whitespace test used by Python's `str.strip()`.  The model covers the
ASCII whitespace characters together with the C1/Unicode whitespace code
points most relevant here (`\x85`, NBSP, and the Unicode line/paragraph
separators); Python additionally strips some rarer Unicode space code points
that never occur in this development. -/

def isSpace (c : Char) : Bool :=
  c == ' ' || c == '\t' || c == '\n' || c == '\x0d' ||
  c == '\x0b' || c == '\x0c' ||
  c == '\x1c' || c == '\x1d' || c == '\x1e' || c == '\x1f' ||
  c == '\x85' || c == '\xa0' || c == '\u2028' || c == '\u2029'

/-- Line-boundary test used by Python's `str.splitlines()`: LF, CR, VT, FF,
FS, GS, RS, NEL, LINE SEPARATOR, PARAGRAPH SEPARATOR (CRLF is handled as a
single boundary by `splitlinesAux`). -/

def isLineBreak (c : Char) : Bool :=
  c == '\n' || c == '\x0d' || c == '\x0b' || c == '\x0c' ||
  c == '\x1c' || c == '\x1d' || c == '\x1e' ||
  c == '\x85' || c == '\u2028' || c == '\u2029'

/-- Drop leading whitespace of a character list (Python `str.lstrip()`). -/
def lstripC (l : List Char) : List Char := l.dropWhile isSpace

/-- Drop trailing whitespace of a character list (Python `str.rstrip()`). -/
def rstripC (l : List Char) : List Char := (l.reverse.dropWhile isSpace).reverse

/-- Drop surrounding whitespace of a character list (Python `str.strip()`). -/
def stripC (l : List Char) : List Char := rstripC (lstripC l)

/-- Python `str.strip()` on strings. -/
def strip (s : String) : String := ⟨stripC s.data⟩

/-- Worker for `splitlines`: `acc` holds the characters of the current line
in reverse.  Follows Python `str.splitlines()`: a line break ends the current
line, `\r\n` counts as a single break, and a trailing break does not open an
empty final line. -/

def splitlinesAux : List Char → List Char → List String
  | [], acc => if acc.isEmpty then [] else [⟨acc.reverse⟩]
  | c :: rest, acc =>
    if isLineBreak c then
      if c = '\x0d' then
        match rest with
        | [] => [⟨acc.reverse⟩]
        | d :: rest2 =>
          if d = '\n' then ⟨acc.reverse⟩ :: splitlinesAux rest2 []
          else ⟨acc.reverse⟩ :: splitlinesAux (d :: rest2) []
      else ⟨acc.reverse⟩ :: splitlinesAux rest []
    else splitlinesAux rest (c :: acc)

/-- Python `str.splitlines()`. -/
def splitlines (s : String) : List String := splitlinesAux s.data []

/-- Python slicing `s[:n]`: the first `n` code points of `s`. -/
def pyTake (s : String) (n : Nat) : String := ⟨s.data.take n⟩

/-- Python truthiness of a string: non-empty strings are truthy. -/
def pyTruthyStr (s : String) : Bool := !(s == "")

/-- Python truthiness of an optional string (`None` and `""` are falsy);
used for `if not API_KEY` and `current_section and line`. -/

def pyTruthyOpt : Option String → Bool
  | none => false
  | some s => pyTruthyStr s

/-- Python string repetition `s * n` (here only used as `"-" * 40`). -/
def pyRepeat (s : String) (n : Nat) : String := ⟨(List.replicate n s.data).flatten⟩

/-- Lookup in a Python dict modelled as an association list in insertion
order (`d[k]` read side; `none` models a `KeyError`). -/

def dictGet? (d : List (String × String)) (k : String) : Option String :=
  match d with
  | [] => none
  | p :: rest => if p.1 == k then some p.2 else dictGet? rest k

/-- Assignment `d[k] = v` on a Python dict modelled as an association list:
an existing key keeps its position, a new key is appended. -/

def dictSet (d : List (String × String)) (k v : String) :
    List (String × String) :=
  if (d.map Prod.fst).contains k then
    d.map (fun p => if p.1 == k then (p.1, v) else p)
  else
    d ++ [(k, v)]

/-- The dict literal initializing `sections` in `segregate_notes`
(src/2_PART/main.py lines 131-136), in source order. -/

def initSections : List (String × String) :=
  [("SUMMARY", ""), ("KEY POINTS", ""), ("DECISIONS", ""), ("ACTION ITEMS", "")]

/-- The four fixed section labels, in the order of `initSections`. -/
def labelList : List String := ["SUMMARY", "KEY POINTS", "DECISIONS", "ACTION ITEMS"]

/-- One iteration of the loop of `segregate_notes`
(src/2_PART/main.py lines 141-148):

    line = line.strip()
    if line in sections:
        current_section = line
    elif current_section and line:
        sections[current_section] += line + "\n"

The state is the `sections` dict together with `current_section`
(`none` models Python's `None`).  The read `sections[current_section]`
raises a `KeyError` when the key is absent; this is modelled by the
`.error` branches. -/

def segStep (st : List (String × String) × Option String) (rawLine : String) :
    Except String (List (String × String) × Option String) :=
  let line := strip rawLine
  if (st.1.map Prod.fst).contains line then
    .ok (st.1, some line)
  else if pyTruthyOpt st.2 && pyTruthyStr line then
    match st.2 with
    | some k =>
      match dictGet? st.1 k with
      | some v => .ok (dictSet st.1 k (v ++ (line ++ "\n")), st.2)
      | none => .error "KeyError"
    | none => .error "KeyError"
  else
    .ok st

/-- `segregate_notes` (src/2_PART/main.py lines 120-150): fold the loop body
over `notes_text.splitlines()` starting from the literal dict and
`current_section = None`, and return the `sections` dict. -/

def segregate_notes (notes_text : String) :
    Except String (List (String × String)) := do
  let st ← (splitlines notes_text).foldlM segStep (initSections, none)
  return st.1

/-- Read a section off the result of `segregate_notes`; `none` when the run
raised or the key is absent. -/

def getSec (r : Except String (List (String × String))) (k : String) :
    Option String :=
  match r with
  | .ok d => dictGet? d k
  | .error _ => none

instance {ε α : Type} [DecidableEq ε] [DecidableEq α] : DecidableEq (Except ε α) := fun a b =>
  match a, b with
  | .ok x, .ok y => if h : x = y then .isTrue (by simp [h]) else .isFalse (by simp [h])
  | .error e, .error f => if h : e = f then .isTrue (by simp [h]) else .isFalse (by simp [h])
  | .ok _, .error _ => .isFalse (by simp)
  | .error _, .ok _ => .isFalse (by simp)

/-- Invariant for `current_section`: Python `None`, or one of the labels. -/
def CurOK : Option String → Prop
  | none => True
  | some k => k ∈ labelList

/-- Join a list of lines, terminating each with a newline. -/
def joinNl : List String → String
  | [] => ""
  | l :: ls => l ++ ("\n" ++ joinNl ls)

/-- A stored body line: non-empty, free of line-break characters, and a
fixed point of `strip` (no surrounding whitespace). -/

def GoodLine (l : String) : Prop :=
  l ≠ "" ∧ (∀ c ∈ l.data, isLineBreak c = false) ∧ strip l = l

/-- A section body as built by `segregate_notes`: a newline-terminated
concatenation of good lines. -/

def GoodVal (v : String) : Prop := ∃ ls : List String, v = joinNl ls ∧ ∀ l ∈ ls, GoodLine l

/-- `pat` occurs as a contiguous substring of `s` at some position other
than the start. -/

def occursInside (pat s : List Char) : Bool :=
  (List.range s.length).any (fun i => decide (i ≠ 0) && pat.isPrefixOf (s.drop i))

/-! ### The renderer `save_notes` and the surrounding execution flows -/

/-- The text written to `meeting_notes.txt` by `save_notes`
(src/2_PART/main.py lines 178-187): for each dict entry in iteration order,
the three writes `f"{title}\n"`, `"-" * 40 + "\n"`, and `content + "\n\n"`. -/

def save_notes_text (sections : List (String × String)) : String :=
  sections.foldl
    (fun acc p => acc ++ (p.1 ++ "\n" ++ (pyRepeat "-" 40 ++ "\n") ++ (p.2 ++ "\n\n"))) ""

/-- One rendered stanza: section name, separator rule, body, terminator. -/
def stanza (title content : String) : String :=
  title ++ "\n" ++ (pyRepeat "-" 40 ++ "\n") ++ (content ++ "\n\n")

/-- The prompt built by `summarize_text` (src/main.py lines 83-97 and
src/1_PART/main.py lines 22-28): the input is first truncated to its first
4000 characters by `text = text[:4000]`. -/

def summarize_text_prompt (text : String) : String :=
  "Summarize the following text in simple and clear language:\n\n" ++ pyTake text 4000

/-- Literal part of the `generate_meeting_notes` f-string before the
interpolated transcript (src/2_PART/main.py lines 90-105). -/

def meeting_notes_pre : String :=
  "\n    You are a professional meeting assistant.\n\n    Convert the following transcript into structured meeting notes\n    using EXACTLY the format below:\n    SUMMARY:\n    - \n    KEY POINTS:\n    - \n    DECISIONS:\n    - \n    ACTION ITEMS:\n    - \n    Transcript:\n    "

/-- Literal part of the `generate_meeting_notes` f-string after the
interpolated transcript. -/

def meeting_notes_post : String := "\n    "

/-- The prompt built by `generate_meeting_notes` (src/2_PART/main.py lines
75-105): the transcript is first truncated by `transcript = transcript[:4000]`. -/

def generate_meeting_notes_prompt (transcript : String) : String :=
  meeting_notes_pre ++ pyTake transcript 4000 ++ meeting_notes_post

/-- Observable trace of one script run: number of remote transcription
calls, inputs of remote summarization/structuring calls, file writes
(destination, content), and `some message` when the run raised. -/

structure RunTrace where
  transcribeCalls : Nat
  structureCalls : List String
  fileWrites : List (String × String)
  outcome : Option String
deriving DecidableEq

/-- The `API_KEY` check at module load of src/2_PART/main.py lines 29-33:
`API_KEY = os.getenv("OPENAI_API_KEY")` followed by
`if not API_KEY: raise ValueError(...)` (Python `not` is true for both
`None` and the empty string). -/

def api_key_check (env : Option String) : Except String Unit :=
  if pyTruthyOpt env then .ok ()
  else .error "OPENAI_API_KEY not found. Please check your .env file."

/-- Model of the external `OpenAI(api_key=...)` constructor as called at
src/main.py lines 28-30 and src/1_PART/main.py line 11 with the unchecked
result of `os.getenv`: the client library raises at construction when the
key argument is `None` and no ambient key exists, and accepts any string.
This models documented third-party library behavior, not repository code;
the scripts contain no key check of their own. -/

def openai_client_init : Option String → Except String Unit
  | none => .error "OpenAIError: The api_key client option must be set"
  | some _ => .ok ()

/-- Execution flow of src/2_PART/main.py: module load (key check, client
construction), then `main()` (transcribe, empty check, generate notes,
segregate, print, save).  `transcript` is the text returned by the remote
transcription call; `model` is the remote structuring collaborator. -/

def twoPart_run (apiKeyEnv : Option String) (transcript : String)
    (model : String → String) : RunTrace :=
  match api_key_check apiKeyEnv with
  | .error e => ⟨0, [], [], some e⟩
  | .ok _ =>
    if pyTruthyStr (strip transcript) = false then
      ⟨1, [], [], some "Transcription failed or audio is empty."⟩
    else
      let prompt := generate_meeting_notes_prompt transcript
      let notes := model prompt
      match segregate_notes notes with
      | .error e => ⟨1, [prompt], [], some e⟩
      | .ok sections =>
        ⟨1, [prompt], [("meeting_notes.txt", save_notes_text sections)], none⟩

/-- Execution flow of src/main.py: client construction at module load,
`read_pdf` (local), the empty-text check `if not pdf_text.strip(): raise
ValueError(...)`, then `summarize_text` (remote call). -/

def mainPy_run (apiKeyEnv : Option String) (pdfText : String) : RunTrace :=
  match openai_client_init apiKeyEnv with
  | .error e => ⟨0, [], [], some e⟩
  | .ok _ =>
    if pyTruthyStr (strip pdfText) = false then
      ⟨0, [], [], some "PDF contains no readable text"⟩
    else
      ⟨0, [summarize_text_prompt pdfText], [], none⟩

/-- Execution flow of src/1_PART/main.py: client construction at module
load, `read_pdf` (local), then `summarize_text` (remote call).  Line 38 of
the source evaluates `ValueError("The PDF file is empty or could not be
read.")` WITHOUT `raise`, so the empty-text guard has no control-flow
effect and is absent from the flow. -/

def onePart_run (apiKeyEnv : Option String) (pdfText : String) : RunTrace :=
  match openai_client_init apiKeyEnv with
  | .error e => ⟨0, [], [], some e⟩
  | .ok _ =>
    ⟨0, [summarize_text_prompt pdfText], [], none⟩

/-- The five-line end-to-end example input of the specification. -/
def c1_input : String :=
  "SUMMARY:\nTeam discussed Q3 roadmap.\nKEY POINTS:\nBudget is tight.\nHiring freeze likely."

/-! ### Properties of the embedded Python string primitives -/

theorem rstripC_isPrefix (x : List Char) : rstripC x <+: x := by
  rw [← List.reverse_suffix]
  show (x.reverse.dropWhile isSpace).reverse.reverse <:+ x.reverse
  rw [List.reverse_reverse]
  exact List.dropWhile_suffix isSpace

theorem head?_of_isPrefix {l₁ l₂ : List Char} (h : l₁ <+: l₂) (hne : l₁ ≠ []) :
    l₂.head? = l₁.head? := by
  obtain ⟨t, rfl⟩ := h
  cases l₁ with
  | nil => exact absurd rfl hne
  | cons a l => rfl

theorem dropWhile_head?_not {p : Char → Bool} {l : List Char} {c : Char}
    (h : (l.dropWhile p).head? = some c) : p c = false := by
  induction l with
  | nil => simp [List.dropWhile] at h
  | cons a t ih =>
    rw [List.dropWhile_cons] at h
    by_cases hp : p a
    · rw [if_pos hp] at h; exact ih h
    · rw [if_neg hp] at h
      simp only [List.head?_cons, Option.some.injEq] at h
      rw [← h]
      exact Bool.not_eq_true _ ▸ (by simpa using hp)

theorem dropWhile_eq_self_of_head? {p : Char → Bool} {l : List Char}
    (h : ∀ c, l.head? = some c → p c = false) : l.dropWhile p = l := by
  cases l with
  | nil => rfl
  | cons a t => rw [List.dropWhile_cons, if_neg (by simp [h a rfl])]

theorem stripC_head?_not_space {l : List Char} {c : Char}
    (h : (stripC l).head? = some c) : isSpace c = false := by
  rcases eq_or_ne (stripC l) [] with he | hne
  · rw [he] at h; simp at h
  · have hp : stripC l <+: lstripC l := rstripC_isPrefix (lstripC l)
    have h2 : (lstripC l).head? = some c := by
      rw [head?_of_isPrefix hp hne]; exact h
    exact dropWhile_head?_not (p := isSpace) h2

theorem stripC_getLast?_not_space {l : List Char} {c : Char}
    (h : (stripC l).getLast? = some c) : isSpace c = false := by
  have h2 : ((lstripC l).reverse.dropWhile isSpace).reverse.getLast? = some c := h
  rw [List.getLast?_reverse] at h2
  exact dropWhile_head?_not h2

theorem stripC_idem (l : List Char) : stripC (stripC l) = stripC l := by
  have h1 : lstripC (stripC l) = stripC l :=
    dropWhile_eq_self_of_head? (fun c hc => stripC_head?_not_space hc)
  have h2 : (stripC l).reverse.dropWhile isSpace = (stripC l).reverse := by
    apply dropWhile_eq_self_of_head?
    intro c hc
    rw [List.head?_reverse] at hc
    exact stripC_getLast?_not_space hc
  show rstripC (lstripC (stripC l)) = stripC l
  rw [h1]
  show ((stripC l).reverse.dropWhile isSpace).reverse = stripC l
  rw [h2, List.reverse_reverse]

theorem stripC_subset (l : List Char) : stripC l ⊆ l := by
  intro c hc
  have h1 : c ∈ lstripC l := (rstripC_isPrefix (lstripC l)).subset hc
  exact (List.dropWhile_suffix isSpace).subset h1

theorem strip_strip (s : String) : strip (strip s) = strip s :=
  String.ext (stripC_idem s.data)

theorem splitlinesAux_no_break :
    ∀ (cs acc : List Char), (∀ c ∈ acc, isLineBreak c = false) →
      ∀ l ∈ splitlinesAux cs acc, ∀ c ∈ l.data, isLineBreak c = false := by
  intro cs acc
  induction cs, acc using splitlinesAux.induct with
  | case1 acc hacc =>
    intro _ l hl
    simp [splitlinesAux, hacc] at hl
  | case2 acc hacc =>
    intro h l hl c hc
    simp only [splitlinesAux, if_neg hacc, List.mem_singleton] at hl
    subst hl
    exact h c (by simpa using hc)
  | case3 acc hbr =>
    intro h l hl c hc
    simp only [splitlinesAux, hbr, if_true, List.mem_singleton] at hl
    subst hl
    exact h c (by simpa using hc)
  | case4 acc rest2 hbr ih =>
    intro h l hl c hc
    simp only [splitlinesAux, hbr, if_true] at hl
    rcases List.mem_cons.mp hl with h1 | h1
    · subst h1; exact h c (by simpa using hc)
    · exact ih (by simp) l h1 c hc
  | case5 acc d rest2 hd hbr ih =>
    intro h l hl c hc
    simp only [splitlinesAux, hbr, if_true, if_neg hd] at hl
    rcases List.mem_cons.mp hl with h1 | h1
    · subst h1; exact h c (by simpa using hc)
    · exact ih (by simp) l h1 c hc
  | case6 c0 rest acc hbr hne ih =>
    intro h l hl c hc
    rw [splitlinesAux.eq_def] at hl
    simp only [hbr, if_true, if_neg hne] at hl
    rcases List.mem_cons.mp hl with h1 | h1
    · subst h1; exact h c (by simpa using hc)
    · exact ih (by simp) l h1 c hc
  | case7 c0 rest acc hbr ih =>
    intro h l hl c hc
    rw [splitlinesAux.eq_def] at hl
    simp only [hbr, if_false, Bool.false_eq_true] at hl
    refine ih ?_ l hl c hc
    intro x hx
    rcases List.mem_cons.mp hx with h1 | h1
    · subst h1; simpa using hbr
    · exact h x h1

theorem splitlines_no_break (s : String) :
    ∀ l ∈ splitlines s, ∀ c ∈ l.data, isLineBreak c = false :=
  splitlinesAux_no_break s.data [] (by simp)

/-! ### Lemmas about the dict model -/

theorem contains_eq_false_of_not_mem {l : List String} {a : String} (h : a ∉ l) :
    l.contains a = false := by
  cases hb : l.contains a
  · rfl
  · exact absurd (List.elem_iff.mp hb) h

theorem dictGet?_of_mem_keys {d : List (String × String)} {k : String}
    (h : k ∈ d.map Prod.fst) : ∃ v, dictGet? d k = some v := by
  induction d with
  | nil => simp at h
  | cons p d ih =>
    by_cases hp : p.1 == k
    · exact ⟨p.2, by simp [dictGet?, hp]⟩
    · have h' : k ∈ p.1 :: d.map Prod.fst := by rw [List.map_cons] at h; exact h
      have h2 : k ∈ d.map Prod.fst := by
        rcases List.mem_cons.mp h' with h1 | h1
        · exact absurd (by simp [h1]) hp
        · exact h1
      rcases ih h2 with ⟨v, hv⟩
      exact ⟨v, by simp [dictGet?, hp, hv]⟩

theorem dictGet?_mem {d : List (String × String)} {k v : String}
    (h : dictGet? d k = some v) : (k, v) ∈ d := by
  induction d with
  | nil => simp [dictGet?] at h
  | cons p d ih =>
    by_cases hp : p.1 == k
    · rw [dictGet?, if_pos hp] at h
      have hk : p.1 = k := by simpa using hp
      have hv : p.2 = v := by simpa using h
      have he : (k, v) = p := by rw [← hk, ← hv]
      rw [he]
      exact List.mem_cons_self p d
    · rw [dictGet?, if_neg hp] at h
      exact List.mem_cons_of_mem p (ih h)

theorem dictSet_map_fst {d : List (String × String)} {k : String} (v : String)
    (h : k ∈ d.map Prod.fst) : (dictSet d k v).map Prod.fst = d.map Prod.fst := by
  have hc : (d.map Prod.fst).contains k = true := List.elem_iff.mpr h
  unfold dictSet
  rw [if_pos hc, List.map_map]
  apply List.map_congr_left
  intro p _
  by_cases hp : p.1 = k <;> simp [hp]

theorem dictGet?_dictSet_self {d : List (String × String)} {k : String} (v : String)
    (h : k ∈ d.map Prod.fst) : dictGet? (dictSet d k v) k = some v := by
  have hc : (d.map Prod.fst).contains k = true := List.elem_iff.mpr h
  unfold dictSet
  rw [if_pos hc]
  clear hc
  induction d with
  | nil => simp at h
  | cons p d ih =>
    by_cases hp : p.1 == k
    · simp [dictGet?, hp]
    · have h' : k ∈ p.1 :: d.map Prod.fst := by rw [List.map_cons] at h; exact h
      have h2 : k ∈ d.map Prod.fst := by
        rcases List.mem_cons.mp h' with h1 | h1
        · exact absurd (by simp [h1]) hp
        · exact h1
      simp only [List.map_cons, dictGet?, if_neg hp]
      exact ih h2

theorem dictGet?_map_replace {d : List (String × String)} {k k' v : String}
    (hne : k' ≠ k) :
    dictGet? (d.map (fun p => if p.1 == k then (p.1, v) else p)) k' = dictGet? d k' := by
  induction d with
  | nil => rfl
  | cons p d ih =>
    by_cases hp : p.1 == k
    · have hk : p.1 = k := by simpa using hp
      have hp' : (p.1 == k') = false := by
        simp only [beq_eq_false_iff_ne, ne_eq, hk]
        exact fun hh => hne hh.symm
      simp only [List.map_cons, if_pos hp, dictGet?, hp', if_false, Bool.false_eq_true]
      exact ih
    · simp only [List.map_cons, if_neg hp, dictGet?]
      by_cases hq : p.1 == k'
      · rw [if_pos hq, if_pos hq]
      · rw [if_neg hq, if_neg hq]
        exact ih

theorem dictGet?_append_single {d : List (String × String)} {k k' v : String}
    (hne : k' ≠ k) : dictGet? (d ++ [(k, v)]) k' = dictGet? d k' := by
  induction d with
  | nil =>
    have : (k == k') = false := by
      simp only [beq_eq_false_iff_ne, ne_eq]
      exact fun hh => hne hh.symm
    simp [dictGet?, this]
  | cons p d ih =>
    by_cases hq : p.1 == k'
    · simp [dictGet?, hq]
    · simp only [List.cons_append, dictGet?, if_neg hq]
      exact ih

theorem dictGet?_dictSet_ne {d : List (String × String)} {k k' : String} (v : String)
    (hne : k' ≠ k) : dictGet? (dictSet d k v) k' = dictGet? d k' := by
  unfold dictSet
  by_cases hc : (d.map Prod.fst).contains k
  · rw [if_pos hc]
    exact dictGet?_map_replace hne
  · rw [if_neg hc]
    exact dictGet?_append_single hne

theorem mem_dictSet {d : List (String × String)} {k v : String} {q : String × String}
    (h : q ∈ dictSet d k v) : q ∈ d ∨ q = (k, v) := by
  unfold dictSet at h
  by_cases hc : (d.map Prod.fst).contains k
  · rw [if_pos hc] at h
    rcases List.mem_map.mp h with ⟨p, hp, he⟩
    by_cases hpk : p.1 == k
    · right
      have hk : p.1 = k := by simpa using hpk
      rw [← he, if_pos hpk, hk]
    · left
      rw [← he, if_neg hpk]
      exact hp
  · rw [if_neg hc] at h
    rcases List.mem_append.mp h with h1 | h1
    · left; exact h1
    · right; simpa using h1

/-! ### Case analysis of the `segregate_notes` loop body -/

theorem segStep_cases (d : List (String × String)) (cur : Option String) (line : String)
    (hK : d.map Prod.fst = labelList) (hC : CurOK cur) :
    (strip line ∈ labelList ∧ segStep (d, cur) line = .ok (d, some (strip line))) ∨
    (strip line ∉ labelList ∧ segStep (d, cur) line = .ok (d, cur)) ∨
    (strip line ∉ labelList ∧ ∃ k v, cur = some k ∧ k ∈ labelList ∧
      dictGet? d k = some v ∧ strip line ≠ "" ∧
      segStep (d, cur) line = .ok (dictSet d k (v ++ (strip line ++ "\n")), cur)) := by
  by_cases hmem : strip line ∈ labelList
  · left
    refine ⟨hmem, ?_⟩
    have hcon : ((d.map Prod.fst).contains (strip line)) = true := by
      rw [hK]; exact List.elem_iff.mpr hmem
    simp only [segStep, hcon, if_true]
  · have hcon : ((d.map Prod.fst).contains (strip line)) = false := by
      rw [hK]; exact contains_eq_false_of_not_mem hmem
    cases hg : (pyTruthyOpt cur && pyTruthyStr (strip line))
    · right; left
      refine ⟨hmem, ?_⟩
      simp only [segStep, hcon, if_false, hg, Bool.false_eq_true]
    · right; right
      have h1 : pyTruthyOpt cur = true := ((Bool.and_eq_true _ _).mp hg).1
      have h2 : pyTruthyStr (strip line) = true := ((Bool.and_eq_true _ _).mp hg).2
      cases cur with
      | none => simp [pyTruthyOpt] at h1
      | some k =>
        have hkin : k ∈ labelList := hC
        have hkmem : k ∈ d.map Prod.fst := by rw [hK]; exact hkin
        rcases dictGet?_of_mem_keys hkmem with ⟨v, hv⟩
        have hne : strip line ≠ "" := by
          intro he
          rw [he] at h2
          simp [pyTruthyStr] at h2
        refine ⟨hmem, k, v, rfl, hkin, hv, hne, ?_⟩
        simp only [segStep, hcon, if_false, hg, if_true, hv, Bool.false_eq_true]

theorem segStep_heading (d : List (String × String)) (cur : Option String) (line : String)
    (hK : d.map Prod.fst = labelList) (hmem : strip line ∈ labelList) :
    segStep (d, cur) line = .ok (d, some (strip line)) := by
  have hcon : ((d.map Prod.fst).contains (strip line)) = true := by
    rw [hK]; exact List.elem_iff.mpr hmem
  simp only [segStep, hcon, if_true]

theorem segStep_not_heading (d : List (String × String)) (cur : Option String) (line : String)
    (hK : d.map Prod.fst = labelList) (hC : CurOK cur) (hmem : strip line ∉ labelList) :
    ∃ d', segStep (d, cur) line = .ok (d', cur) ∧ d'.map Prod.fst = labelList := by
  rcases segStep_cases d cur line hK hC with ⟨h1, _⟩ | ⟨_, h2⟩ | ⟨_, k, v, hcur, hkin, hv, hne, h3⟩
  · exact absurd h1 hmem
  · exact ⟨d, h2, hK⟩
  · refine ⟨_, h3, ?_⟩
    rw [dictSet_map_fst _ (by rw [hK]; exact hkin)]
    exact hK

theorem segStep_total (d : List (String × String)) (cur : Option String) (line : String)
    (hK : d.map Prod.fst = labelList) (hC : CurOK cur) :
    ∃ d' cur', segStep (d, cur) line = .ok (d', cur') ∧
      d'.map Prod.fst = labelList ∧ CurOK cur' := by
  rcases segStep_cases d cur line hK hC with ⟨h1, h2⟩ | ⟨_, h2⟩ | ⟨_, k, v, hcur, hkin, hv, hne, h2⟩
  · exact ⟨d, some (strip line), h2, hK, h1⟩
  · exact ⟨d, cur, h2, hK, hC⟩
  · refine ⟨_, cur, h2, ?_, hC⟩
    rw [dictSet_map_fst _ (by rw [hK]; exact hkin)]
    exact hK

theorem segRun_total : ∀ (lines : List String) (d : List (String × String)) (cur : Option String),
    d.map Prod.fst = labelList → CurOK cur →
    ∃ d' cur', lines.foldlM segStep (d, cur) = .ok (d', cur') ∧
      d'.map Prod.fst = labelList ∧ CurOK cur' := by
  intro lines
  induction lines with
  | nil =>
    intro d cur hK hC
    exact ⟨d, cur, rfl, hK, hC⟩
  | cons l rest ih =>
    intro d cur hK hC
    rcases segStep_total d cur l hK hC with ⟨d1, cur1, h1, hK1, hC1⟩
    rcases ih d1 cur1 hK1 hC1 with ⟨d', cur', h2, hK', hC'⟩
    refine ⟨d', cur', ?_, hK', hC'⟩
    rw [List.foldlM_cons, h1]
    exact h2

/-! ### Shape of accumulated section bodies -/

theorem joinNl_data : ∀ ls : List String,
    (joinNl ls).data = (ls.map (fun l => l.data ++ ['\n'])).flatten := by
  intro ls
  induction ls with
  | nil => rfl
  | cons a ls ih =>
    show (a ++ ("\n" ++ joinNl ls)).data = _
    simp [String.data_append, ih, List.append_assoc]

theorem joinNl_snoc (ls : List String) (l : String) :
    joinNl (ls ++ [l]) = joinNl ls ++ (l ++ "\n") := by
  apply String.ext
  simp [joinNl_data, String.data_append]

theorem goodVal_empty : GoodVal "" := ⟨[], rfl, by simp⟩

theorem GoodVal.push {v l : String} (hv : GoodVal v) (hl : GoodLine l) :
    GoodVal (v ++ (l ++ "\n")) := by
  rcases hv with ⟨ls, rfl, hls⟩
  refine ⟨ls ++ [l], (joinNl_snoc ls l).symm, ?_⟩
  intro x hx
  rcases List.mem_append.mp hx with h1 | h1
  · exact hls x h1
  · rw [List.mem_singleton.mp h1]; exact hl

theorem joinNl_ends : ∀ ls : List String, ls ≠ [] →
    (joinNl ls).data.getLast? = some '\n' := by
  intro ls
  induction ls with
  | nil => intro h; exact absurd rfl h
  | cons a ls ih =>
    intro _
    show (a ++ ("\n" ++ joinNl ls)).data.getLast? = some '\n'
    have hne : ("\n" ++ joinNl ls).data ≠ [] := by simp [String.data_append]
    rw [String.data_append, List.getLast?_append_of_ne_nil _ hne]
    cases ls with
    | nil => rfl
    | cons b ls2 =>
      have hlast : (joinNl (b :: ls2)).data.getLast? = some '\n' := ih (by simp)
      have hne2 : (joinNl (b :: ls2)).data ≠ [] := by
        intro hx
        rw [hx] at hlast
        simp at hlast
      rw [String.data_append, List.getLast?_append_of_ne_nil _ hne2]
      exact hlast

theorem goodVal_ends {v : String} (hv : GoodVal v) (hne : v ≠ "") :
    v.data.getLast? = some '\n' := by
  rcases hv with ⟨ls, rfl, _⟩
  cases ls with
  | nil => exact absurd rfl hne
  | cons a ls2 => exact joinNl_ends (a :: ls2) (by simp)

theorem segStep_good (d : List (String × String)) (cur : Option String) (line : String)
    (hK : d.map Prod.fst = labelList) (hC : CurOK cur)
    (hg : ∀ k v, (k, v) ∈ d → GoodVal v)
    (hline : ∀ c ∈ line.data, isLineBreak c = false)
    (d' : List (String × String)) (cur' : Option String)
    (h : segStep (d, cur) line = .ok (d', cur')) :
    ∀ k v, (k, v) ∈ d' → GoodVal v := by
  rcases segStep_cases d cur line hK hC with ⟨_, h1⟩ | ⟨_, h1⟩ | ⟨_, k0, v0, hcur, hkin, hv0, hne, h1⟩
  · rw [h1] at h
    injection h with h2
    have hd : d = d' := congrArg Prod.fst h2
    rw [← hd]
    exact hg
  · rw [h1] at h
    injection h with h2
    have hd : d = d' := congrArg Prod.fst h2
    rw [← hd]
    exact hg
  · rw [h1] at h
    injection h with h2
    have hd : dictSet d k0 (v0 ++ (strip line ++ "\n")) = d' := congrArg Prod.fst h2
    rw [← hd]
    intro k v hkv
    rcases mem_dictSet hkv with h3 | h3
    · exact hg k v h3
    · have hveq : v = v0 ++ (strip line ++ "\n") := congrArg Prod.snd h3
      rw [hveq]
      apply GoodVal.push (hg k0 v0 (dictGet?_mem hv0))
      refine ⟨hne, ?_, strip_strip line⟩
      intro c hc
      exact hline c (stripC_subset line.data hc)

theorem segRun_good : ∀ (lines : List String) (d : List (String × String)) (cur : Option String),
    d.map Prod.fst = labelList → CurOK cur →
    (∀ k v, (k, v) ∈ d → GoodVal v) →
    (∀ l ∈ lines, ∀ c ∈ l.data, isLineBreak c = false) →
    ∀ st' : List (String × String) × Option String,
      lines.foldlM segStep (d, cur) = .ok st' →
      ∀ k v, (k, v) ∈ st'.1 → GoodVal v := by
  intro lines
  induction lines with
  | nil =>
    intro d cur hK hC hg _ st' h
    have h' : Except.ok (d, cur) = Except.ok st' := h
    injection h' with h''
    rw [← h'']
    exact hg
  | cons l rest ih =>
    intro d cur hK hC hg hlines st' h
    rcases segStep_total d cur l hK hC with ⟨d1, cur1, h1, hK1, hC1⟩
    rw [List.foldlM_cons, h1] at h
    have hg1 : ∀ k v, (k, v) ∈ d1 → GoodVal v :=
      segStep_good d cur l hK hC hg (hlines l (by simp)) d1 cur1 h1
    exact ih d1 cur1 hK1 hC1 hg1 (fun x hx => hlines x (by simp [hx])) st' h

theorem segregate_notes_run (s : String) {d : List (String × String)}
    (h : segregate_notes s = .ok d) :
    ∃ cur', (splitlines s).foldlM segStep (initSections, none) = .ok (d, cur') := by
  unfold segregate_notes at h
  cases hr : (splitlines s).foldlM segStep (initSections, none) with
  | error e =>
    rw [hr] at h
    have h' : (Except.error e : Except String (List (String × String))) = .ok d := h
    exact Except.noConfusion h'
  | ok st' =>
    rw [hr] at h
    have h2 : Except.ok st'.1 = Except.ok d := h
    injection h2 with h3
    refine ⟨st'.2, ?_⟩
    rw [← h3]

theorem segStep_mono (d : List (String × String)) (cur : Option String) (line : String)
    (d' : List (String × String)) (cur' : Option String)
    (hK : d.map Prod.fst = labelList) (hC : CurOK cur)
    (h : segStep (d, cur) line = .ok (d', cur')) :
    ∀ k v, dictGet? d k = some v → ∃ w, dictGet? d' k = some (v ++ w) := by
  rcases segStep_cases d cur line hK hC with ⟨_, h1⟩ | ⟨_, h1⟩ | ⟨_, k0, v0, hcur, hkin, hv0, hne, h1⟩
  · rw [h1] at h
    injection h with h2
    have hd : d = d' := congrArg Prod.fst h2
    intro k v hv
    exact ⟨"", by rw [← hd, String.append_empty]; exact hv⟩
  · rw [h1] at h
    injection h with h2
    have hd : d = d' := congrArg Prod.fst h2
    intro k v hv
    exact ⟨"", by rw [← hd, String.append_empty]; exact hv⟩
  · rw [h1] at h
    injection h with h2
    have hd : dictSet d k0 (v0 ++ (strip line ++ "\n")) = d' := congrArg Prod.fst h2
    intro k v hv
    by_cases hk : k = k0
    · have hveq : v = v0 := by
        rw [hk, hv0] at hv
        injection hv with hx
        exact hx.symm
      refine ⟨strip line ++ "\n", ?_⟩
      rw [← hd, hk, hveq]
      exact dictGet?_dictSet_self _ (by rw [hK]; exact hkin)
    · refine ⟨"", ?_⟩
      rw [← hd, String.append_empty, dictGet?_dictSet_ne _ hk]
      exact hv

/-! ### No label occurs inside another label at a positive offset -/

theorem occursInside_of_split {pat s a b : List Char}
    (hs : s = a ++ (pat ++ b)) (ha : a ≠ []) (hp : pat ≠ []) :
    occursInside pat s = true := by
  apply List.any_eq_true.mpr
  refine ⟨a.length, List.mem_range.mpr ?_, ?_⟩
  · rw [hs, List.length_append, List.length_append]
    have hlen : 0 < pat.length := List.length_pos.mpr hp
    omega
  · apply (Bool.and_eq_true _ _).mpr
    constructor
    · exact decide_eq_true (fun h0 => ha (List.length_eq_zero.mp h0))
    · rw [hs, List.drop_left]
      exact List.isPrefixOf_iff_prefix.mpr ⟨b, rfl⟩

theorem label_not_inside_label :
    ∀ M ∈ labelList, ∀ L ∈ labelList, occursInside L.data M.data = false := by decide

theorem labels_nonempty : ∀ L ∈ labelList, L.data ≠ [] := by decide

theorem strip_label : ∀ L ∈ labelList, strip L = L := by decide

theorem strip_not_label_of_inside {line a b L : String}
    (hL : L ∈ labelList) (hsplit : strip line = a ++ (L ++ b)) (ha : a ≠ "") :
    strip line ∉ labelList := by
  intro hmem
  have hdata : (strip line).data = a.data ++ (L.data ++ b.data) := by
    rw [hsplit]
    simp [String.data_append]
  have hocc : occursInside L.data (strip line).data = true :=
    occursInside_of_split hdata
      (fun h0 => ha (String.ext (by rw [h0])))
      (labels_nonempty L hL)
  have hnot := label_not_inside_label (strip line) hmem L hL
  rw [hocc] at hnot
  exact Bool.noConfusion hnot

/-! ### Derived facts shared by the claim theorems -/

theorem keys_shape {d : List (String × String)} (h : d.map Prod.fst = labelList) :
    ∃ a b c e, d = [("SUMMARY", a), ("KEY POINTS", b), ("DECISIONS", c), ("ACTION ITEMS", e)] := by
  rcases d with _ | ⟨p1, _ | ⟨p2, _ | ⟨p3, _ | ⟨p4, _ | ⟨p5, rest⟩⟩⟩⟩⟩ <;>
    simp [labelList] at h
  obtain ⟨h1, h2, h3, h4⟩ := h
  exact ⟨p1.2, p2.2, p3.2, p4.2, by rw [← h1, ← h2, ← h3, ← h4]⟩

theorem segregate_notes_total (s : String) :
    ∃ d, segregate_notes s = .ok d ∧ d.map Prod.fst = labelList := by
  rcases segRun_total (splitlines s) initSections none (by decide) trivial with
    ⟨d', cur', h, hK, _⟩
  refine ⟨d', ?_, hK⟩
  unfold segregate_notes
  rw [h]
  rfl

theorem save_notes_text_quad (a b c e : String) :
    save_notes_text [("SUMMARY", a), ("KEY POINTS", b), ("DECISIONS", c), ("ACTION ITEMS", e)] =
      stanza "SUMMARY" a ++
        (stanza "KEY POINTS" b ++ (stanza "DECISIONS" c ++ stanza "ACTION ITEMS" e)) := by
  apply String.ext
  simp [save_notes_text, stanza, List.foldl, String.data_append, List.append_assoc]

/-! ## Claim theorems -/

/-- C1 (counterexample): on the five-line end-to-end example input the
claimed section contents do not hold in `segregate_notes`: the heading
test is an exact dict-key comparison, so "SUMMARY:" (with colon) is not
recognized, nothing is accumulated, and there is no fallback sentinel. -/

theorem C1_counterexample :
    ¬ (getSec (segregate_notes c1_input) "SUMMARY" = some "Team discussed Q3 roadmap.\n" ∧
       getSec (segregate_notes c1_input) "KEY POINTS" =
         some "Budget is tight.\nHiring freeze likely.\n" ∧
       getSec (segregate_notes c1_input) "DECISIONS" = some "No information detected.\n" ∧
       getSec (segregate_notes c1_input) "ACTION ITEMS" = some "No information detected.\n") := by
  decide

/-- C1 (amended): on the example input `segregate_notes` returns all four
sections bound to the empty string, because no line equals a bare label
and the code has no sentinel replacement. -/

theorem C1_example_all_sections_empty :
    segregate_notes c1_input =
      .ok [("SUMMARY", ""), ("KEY POINTS", ""), ("DECISIONS", ""), ("ACTION ITEMS", "")] := by
  decide

/-- C2 (counterexample): heading recognition is not case-insensitive or
prefix-tolerant: the line "summary:" does not set the current section, so
the following body line is dropped and SUMMARY stays empty instead of
receiving "Body.\n". -/

theorem C2_counterexample :
    getSec (segregate_notes "summary:\nBody.") "SUMMARY" ≠ some "Body.\n" := by decide

/-- C2 (amended): heading recognition in `segregate_notes` is an exact,
case-sensitive equality test of the stripped line against the four
labels: such a line sets the current section and is not appended; every
other line leaves the current section unchanged. -/

theorem C2_heading_recognition_exact (d : List (String × String)) (cur : Option String)
    (line : String) (hK : d.map Prod.fst = labelList) (hC : CurOK cur) :
    (strip line ∈ labelList → segStep (d, cur) line = .ok (d, some (strip line))) ∧
    (strip line ∉ labelList → ∃ d', segStep (d, cur) line = .ok (d', cur)) := by
  constructor
  · intro hmem
    exact segStep_heading d cur line hK hmem
  · intro hmem
    rcases segStep_not_heading d cur line hK hC hmem with ⟨d', h, _⟩
    exact ⟨d', h⟩

/-- Witness for C2 (amended) at concrete inputs: "SUMMARY" is recognized,
"summary:" is not. -/

theorem C2_heading_recognition_exact_witness :
    segStep (initSections, none) "SUMMARY" = .ok (initSections, some (strip "SUMMARY")) ∧
    ∃ d', segStep (initSections, none) "summary:" = .ok (d', none) :=
  ⟨(C2_heading_recognition_exact initSections none "SUMMARY" (by decide) trivial).1 (by decide),
   (C2_heading_recognition_exact initSections none "summary:" (by decide) trivial).2 (by decide)⟩

/-- C3 (counterexample): parsing the empty string does not produce the
sentinel "No information detected.\n"; the DECISIONS section comes back
as the empty string. -/

theorem C3_counterexample :
    getSec (segregate_notes "") "DECISIONS" ≠ some "No information detected.\n" := by decide

/-- C3 (amended): when no line of the input passes the exact heading
test — in particular for the empty string, which has no lines — the
returned mapping is the initial one with all four sections bound to the
empty string; empty accumulators are not replaced by any sentinel. -/

theorem C3_empty_sections_stay_empty (s : String)
    (h : ∀ l ∈ splitlines s, strip l ∉ labelList) :
    segregate_notes s = .ok initSections := by
  have hrun : ∀ lines : List String, (∀ l ∈ lines, strip l ∉ labelList) →
      lines.foldlM segStep (initSections, none) = .ok (initSections, none) := by
    intro lines
    induction lines with
    | nil => intro _; rfl
    | cons l rest ih =>
      intro hl
      rw [List.foldlM_cons]
      have hstep : segStep (initSections, none) l = .ok (initSections, none) := by
        rcases segStep_cases initSections none l (by decide) trivial with
          ⟨h1, _⟩ | ⟨_, h2⟩ | ⟨_, k, v, hcur, _⟩
        · exact absurd h1 (hl l (by simp))
        · exact h2
        · exact Option.noConfusion hcur
      rw [hstep]
      exact ih (fun x hx => hl x (by simp [hx]))
  unfold segregate_notes
  rw [hrun (splitlines s) h]
  rfl

/-- Witness for C3 (amended) at the empty string. -/
theorem C3_empty_sections_stay_empty_witness :
    segregate_notes "" = .ok initSections :=
  C3_empty_sections_stay_empty "" (by decide)

/-- C4: for every input string, `segregate_notes` terminates without
raising and returns a mapping with exactly the four fixed keys SUMMARY,
KEY POINTS, DECISIONS, ACTION ITEMS, in that fixed order, and no other
keys. -/

theorem C4_parse_total_fixed_keys (s : String) :
    ∃ d, segregate_notes s = .ok d ∧
      d.map Prod.fst = ["SUMMARY", "KEY POINTS", "DECISIONS", "ACTION ITEMS"] :=
  segregate_notes_total s

/-- C5 (code evidence): src/main.py and src/2_PART/main.py abort on
empty or whitespace-only text before any remote structuring call, but
src/1_PART/main.py only evaluates `ValueError(...)` without raising it,
so an empty PDF text is forwarded to the remote model and that run
finishes without error. -/

theorem C5_empty_input_not_always_fatal (k : String) (model : String → String) :
    (onePart_run (some k) "").structureCalls = [summarize_text_prompt ""] ∧
    (onePart_run (some k) "").outcome = none ∧
    (mainPy_run (some k) "").outcome = some "PDF contains no readable text" ∧
    (mainPy_run (some k) "").structureCalls = [] ∧
    (twoPart_run (some "sk-test") "   " model).outcome =
      some "Transcription failed or audio is empty." ∧
    (twoPart_run (some "sk-test") "   " model).structureCalls = [] :=
  ⟨rfl, rfl, rfl, rfl, rfl, rfl⟩

/-- C6: when the credential is absent from the environment (`os.getenv`
returns `None`), each of the three scripts fails before any remote call
is attempted: src/2_PART raises its explicit ValueError at module load,
and src/main.py and src/1_PART fail at client construction. -/

theorem C6_missing_credential_fails_early (transcript pdfText : String)
    (model : String → String) :
    ((twoPart_run none transcript model).outcome =
        some "OPENAI_API_KEY not found. Please check your .env file." ∧
      (twoPart_run none transcript model).transcribeCalls = 0 ∧
      (twoPart_run none transcript model).structureCalls = []) ∧
    ((mainPy_run none pdfText).outcome.isSome = true ∧
      (mainPy_run none pdfText).structureCalls = []) ∧
    ((onePart_run none pdfText).outcome.isSome = true ∧
      (onePart_run none pdfText).structureCalls = []) :=
  ⟨⟨rfl, rfl, rfl⟩, ⟨rfl, rfl⟩, ⟨rfl, rfl⟩⟩

/-- C7: in all three scripts the text interpolated into the remote prompt
is exactly the first 4000 characters of the input, and any input of
length at most 4000 passes through unchanged. -/

theorem C7_truncation_to_4000 (text : String) :
    summarize_text_prompt text =
      "Summarize the following text in simple and clear language:\n\n" ++ pyTake text 4000 ∧
    generate_meeting_notes_prompt text =
      meeting_notes_pre ++ pyTake text 4000 ++ meeting_notes_post ∧
    (pyTake text 4000).data = text.data.take 4000 ∧
    (text.length ≤ 4000 → pyTake text 4000 = text) := by
  refine ⟨rfl, rfl, rfl, ?_⟩
  intro h
  apply String.ext
  exact List.take_of_length_le h

/-- Witness for C7 at a short concrete input. -/
theorem C7_truncation_to_4000_witness :
    ("short note" : String).length ≤ 4000 ∧ pyTake "short note" 4000 = "short note" :=
  ⟨by decide, (C7_truncation_to_4000 "short note").2.2.2 (by decide)⟩

/-- C8: for every input, the renderer emits exactly one stanza per
section — the section name, a rule of 40 dashes, the body, and the
blank-line terminator `"\n\n"` — and the stanzas follow the fixed key
order SUMMARY, KEY POINTS, DECISIONS, ACTION ITEMS of the parsed mapping,
regardless of the order headings appeared in the input. -/

theorem C8_render_one_stanza_fixed_order (notes_text : String) :
    ∃ a b c e,
      segregate_notes notes_text =
        .ok [("SUMMARY", a), ("KEY POINTS", b), ("DECISIONS", c), ("ACTION ITEMS", e)] ∧
      save_notes_text [("SUMMARY", a), ("KEY POINTS", b), ("DECISIONS", c), ("ACTION ITEMS", e)] =
        stanza "SUMMARY" a ++
          (stanza "KEY POINTS" b ++ (stanza "DECISIONS" c ++ stanza "ACTION ITEMS" e)) ∧
      (pyRepeat "-" 40).data = List.replicate 40 '-' := by
  rcases segregate_notes_total notes_text with ⟨d, hok, hK⟩
  rcases keys_shape hK with ⟨a, b, c, e, rfl⟩
  exact ⟨a, b, c, e, hok, save_notes_text_quad a b c e, by decide⟩

/-- C9: a line exactly equal to one of the four heading labels is always
recognized (the current section is set to it and nothing is appended),
while a label occurring inside the trimmed line at any non-initial
position never causes a section switch: matching is anchored at the start
of the trimmed line. -/

theorem C9_heading_match_anchored (d : List (String × String)) (cur : Option String)
    (hK : d.map Prod.fst = labelList) (hC : CurOK cur) :
    (∀ L ∈ labelList, segStep (d, cur) L = .ok (d, some L)) ∧
    (∀ line a b L : String, L ∈ labelList → strip line = a ++ (L ++ b) → a ≠ "" →
      ∃ d', segStep (d, cur) line = .ok (d', cur)) := by
  constructor
  · intro L hL
    have h := segStep_heading d cur L hK (by rw [strip_label L hL]; exact hL)
    rw [strip_label L hL] at h
    exact h
  · intro line a b L hL hsplit ha
    have hmem := strip_not_label_of_inside hL hsplit ha
    rcases segStep_not_heading d cur line hK hC hmem with ⟨d', h, _⟩
    exact ⟨d', h⟩

/-- Witness for C9 at concrete inputs: the exact label "DECISIONS" is
recognized; a mid-sentence "DECISIONS" does not switch the section. -/

theorem C9_heading_match_anchored_witness :
    segStep (initSections, none) "DECISIONS" = .ok (initSections, some "DECISIONS") ∧
    ∃ d', segStep (initSections, some "SUMMARY") "We made DECISIONS today" =
      .ok (d', some "SUMMARY") :=
  ⟨(C9_heading_match_anchored initSections none (by decide) trivial).1 "DECISIONS" (by decide),
   (C9_heading_match_anchored initSections (some "SUMMARY") (by decide)
      (show "SUMMARY" ∈ labelList by decide)).2
     "We made DECISIONS today" "We made " " today" "DECISIONS"
     (by decide) (by decide) (by decide)⟩

/-- C10: section bodies only ever grow — a later heading occurrence of
the same section resumes accumulation without resetting (shown generally
as step monotonicity and concretely on an input where SUMMARY occurs
twice) — and every value of the returned mapping is a concatenation of
stripped, non-empty, line-break-free lines each terminated by a newline,
so a non-empty value ends with a newline and contains no blank lines. -/

theorem C10_accumulation_and_body_shape :
    (∀ (s : String) (d : List (String × String)) (k v : String),
        segregate_notes s = .ok d → (k, v) ∈ d →
        GoodVal v ∧ (v ≠ "" → v.data.getLast? = some '\n')) ∧
    (∀ (d : List (String × String)) (cur : Option String) (line : String)
        (d' : List (String × String)) (cur' : Option String),
        d.map Prod.fst = labelList → CurOK cur →
        segStep (d, cur) line = .ok (d', cur') →
        ∀ k v, dictGet? d k = some v → ∃ w, dictGet? d' k = some (v ++ w)) ∧
    segregate_notes "SUMMARY\nalpha\nKEY POINTS\nbeta\nSUMMARY\ngamma" =
      .ok [("SUMMARY", "alpha\ngamma\n"), ("KEY POINTS", "beta\n"),
           ("DECISIONS", ""), ("ACTION ITEMS", "")] := by
  refine ⟨?_, ?_, by decide⟩
  · intro s d k v h hkv
    rcases segregate_notes_run s h with ⟨cur', hrun⟩
    have hgood := segRun_good (splitlines s) initSections none (by decide) trivial
      (by
        intro k0 v0 h0
        simp only [initSections, List.mem_cons, List.mem_singleton, List.not_mem_nil,
          or_false, Prod.mk.injEq] at h0
        rcases h0 with ⟨_, rfl⟩ | ⟨_, rfl⟩ | ⟨_, rfl⟩ | ⟨_, rfl⟩ <;> exact goodVal_empty)
      (splitlines_no_break s) (d, cur') hrun k v hkv
    exact ⟨hgood, fun hne => goodVal_ends hgood hne⟩
  · intro d cur line d' cur' hK hC h
    exact segStep_mono d cur line d' cur' hK hC h

/-- Witness for C10 at concrete inputs. -/
theorem C10_accumulation_and_body_shape_witness :
    (GoodVal "alpha\ngamma\n" ∧
      ("alpha\ngamma\n" ≠ "" → ("alpha\ngamma\n" : String).data.getLast? = some '\n')) ∧
    (∃ w, dictGet? [("SUMMARY", "a\n"), ("KEY POINTS", ""), ("DECISIONS", ""),
        ("ACTION ITEMS", "")] "SUMMARY" = some ("" ++ w)) :=
  ⟨C10_accumulation_and_body_shape.1 "SUMMARY\nalpha\nKEY POINTS\nbeta\nSUMMARY\ngamma"
      [("SUMMARY", "alpha\ngamma\n"), ("KEY POINTS", "beta\n"),
       ("DECISIONS", ""), ("ACTION ITEMS", "")]
      "SUMMARY" "alpha\ngamma\n" (by decide) (by decide),
   C10_accumulation_and_body_shape.2.1 initSections (some "SUMMARY") "a"
      [("SUMMARY", "a\n"), ("KEY POINTS", ""), ("DECISIONS", ""), ("ACTION ITEMS", "")]
      (some "SUMMARY") (by decide) (show "SUMMARY" ∈ labelList by decide) (by decide)
      "SUMMARY" "" (by decide)⟩

end YTAI
